import Mathlib

/-!
Verification development for the ironbound-ledger reconciliation pipeline
(src/ledger.py).  The pure core — timestamp extraction, finality test,
message chunker, identifier resolver, receipt formatters and the
classifier loop of main — is embedded shallowly below.  Python dicts are
embedded as insertion-ordered association lists, Python falsiness of
field accesses is made explicit, and an exception raised by the Python
code is embedded as an Option result (none = the call raises).
Timestamps are epoch milliseconds, embedded as Nat.
-/

/-- A raw JSON-ish scalar carried in an id field of a payload: an int,
a string, or null.  Models the Any-typed values ledger.py receives. -/
inductive PyVal where
  | vInt (n : Int)
  | vStr (s : String)
  | vNone
deriving DecidableEq, Repr

/-- Python truthiness of a PyVal: 0, the empty string and None are falsy. -/
def pyTruthy : PyVal → Bool
  | PyVal.vInt n => n != 0
  | PyVal.vStr s => s != ""
  | PyVal.vNone => false

/-- Python x or y on id values: x when truthy, else y. -/
def pyOr (a b : PyVal) : PyVal := if pyTruthy a then a else b

/-- The value of a decimal digit character, none for any other
character. -/
def charDigit (c : Char) : Option Nat :=
  if decide ('0' ≤ c ∧ c ≤ '9') then some (c.toNat - '0'.toNat) else none

/-- Accumulate the value of a run of decimal digits; none when a
non-digit appears. -/
def digitsValAux : List Char → Nat → Option Nat
  | [], acc => some acc
  | c :: cs, acc =>
    match charDigit c with
    | some d => digitsValAux cs (acc * 10 + d)
    | none => none

/-- Parse an optionally signed decimal numeral, the grammar the Python
int(str) conversion accepts after surrounding whitespace is removed. -/
def parseIntChars : List Char → Option Int
  | [] => none
  | '+' :: cs => if cs.isEmpty then none else (digitsValAux cs 0).map Int.ofNat
  | '-' :: cs =>
    if cs.isEmpty then none else (digitsValAux cs 0).map (fun n => -(n : Int))
  | cs => (digitsValAux cs 0).map Int.ofNat

/-- A draft pick record inside a trade transaction (fields read by
format_trade_receipt, ledger.py lines 222-233).  A missing key is
embedded as none / vNone. -/
structure Pick where
  season : Option String
  round : Option Nat
  owner_id : PyVal := PyVal.vNone
  roster_id : PyVal := PyVal.vNone
  previous_owner_id : PyVal := PyVal.vNone
  previous_roster_id : PyVal := PyVal.vNone
deriving DecidableEq, Repr

/-- A raw transaction record as fetched from the platform: exactly the
keys ledger.py reads.  A dict-valued field is an insertion-ordered
association list; a missing key is none. -/
structure Txn where
  status : Option String := none
  status_updated : Option Nat := none
  created : Option Nat := none
  ttype : Option String := none
  adds : Option (List (String × PyVal)) := none
  drops : Option (List (String × PyVal)) := none
  draft_picks : Option (List Pick) := none
  roster_ids : Option (List PyVal) := none
  consenter_roster_ids : Option (List PyVal) := none
deriving DecidableEq, Repr

/-- Python t.get(k) or n fallback on a numeric field: None and 0 are
falsy, so a stored 0 falls through to the next alternative. -/
def orNat (a : Option Nat) (b : Nat) : Nat :=
  match a with
  | some n => if n = 0 then b else n
  | none => b

/-- txn_ts (ledger.py lines 122-123): status_updated, else created, else 0,
with Python falsiness (a stored 0 counts as absent). -/
def txn_ts (t : Txn) : Nat := orNat t.status_updated (orNat t.created 0)

/-- is_final_status (ledger.py lines 117-119): the lower-cased status is
one of the three terminal statuses. -/
def is_final_status (t : Txn) : Bool :=
  let status := (t.status.getD "").toLower
  status == "complete" || status == "approved" || status == "executed"

/-- The whitespace class of the Python str.strip() default. -/
def isPySpace (c : Char) : Bool :=
  c = ' ' || c = '\t' || c = '\n' || c = '\r' || c = '\x0b' || c = '\x0c'

/-- Both-ends whitespace strip on a character list. -/
def stripChars (l : List Char) : List Char :=
  ((l.dropWhile isPySpace).reverse.dropWhile isPySpace).reverse

/-- Python str.strip() with no argument. -/
def pyStrip (s : String) : String := ⟨stripChars s.data⟩

/-- Embeds the Python int(v) conversion: an int passes through, a string
is parsed as an optionally signed numeral after stripping surrounding
whitespace, and None (TypeError) or an unparsable string (ValueError)
yields none, i.e. the conversion raises. -/
def pyToInt : PyVal → Option Int
  | PyVal.vInt n => some n
  | PyVal.vStr s => parseIntChars (stripChars s.data)
  | PyVal.vNone => none

/-- Insert an element into an ascending list, before the first element
it is le-below: the insertion step of a stable ascending sort. -/
def insertLe {α : Type} (le : α → α → Bool) (x : α) : List α → List α
  | [] => [x]
  | y :: ys => if le x y then x :: y :: ys else y :: insertLe le x ys

/-- The stable ascending sort (insertion sort): extensionally the sort
the Python sorted builtin and list.sort perform, since a stable sort
with a fixed key is unique. -/
def pySorted {α : Type} (le : α → α → Bool) (l : List α) : List α :=
  l.foldr (insertLe le) []

/-- The loop of chunk_lines (ledger.py lines 126-137), state-threaded:
msgs is the chunks emitted so far and cur the chunk under construction.
When adding the next line would push cur past 1900 characters, cur is
flushed and a fresh chunk starts from the header; at the end cur is kept
only if it differs from the bare header after stripping. -/
def chunkLoop (header : String) : List String → List String → String → List String
  | [], msgs, cur => if pyStrip cur ≠ pyStrip header then msgs ++ [cur] else msgs
  | line :: rest, msgs, cur =>
    if cur.length + line.length + 1 > 1900 then
      chunkLoop header rest (msgs ++ [cur]) (header ++ line ++ "\n")
    else
      chunkLoop header rest msgs (cur ++ line ++ "\n")

/-- chunk_lines (ledger.py lines 126-137). -/
def chunk_lines (header : String) (lines : List String) : List String :=
  chunkLoop header lines [] header

/-- One step of the chunker state (emitted chunks, current chunk),
without the final keep-or-discard decision. -/
def chunkStep (header : String) (st : List String × String) (line : String) :
    List String × String :=
  if st.2.length + line.length + 1 > 1900 then
    (st.1 ++ [st.2], header ++ line ++ "\n")
  else
    (st.1, st.2 ++ line ++ "\n")

/-- The chunker state after consuming all lines, before the final
keep-or-discard decision on the accumulated chunk. -/
def chunkState (header : String) (lines : List String) : List String × String :=
  lines.foldl (chunkStep header) ([], header)

/-- resolve_rid (ledger.py lines 94-105, duplicated as the inner resolve_rid
of format_trade_receipt at lines 198-210): convert to int, catching the
exception; a known team id resolves to itself, else a known owner id
resolves through user_to_rid, else unresolved. -/
def resolve_rid (val : PyVal) (rmap : List (Int × String))
    (user_to_rid : List (Int × Int)) : Option Int :=
  match pyToInt val with
  | none => none
  | some x =>
    if (List.lookup x rmap).isSome then some x
    else
      match List.lookup x user_to_rid with
      | some r => some r
      | none => none

/-- fmt_player (ledger.py lines 107-108): pmap.get(pid, pid). -/
def fmt_player (pid : String) (pmap : List (String × String)) : String :=
  (List.lookup pid pmap).getD pid

/-- rmap.get(rid, f-string Roster rid) as used at ledger.py lines 162
and 251: the deterministic display fallback for an unknown team id. -/
def team_display (rmap : List (Int × String)) (rid : Int) : String :=
  (List.lookup rid rmap).getD ("Roster " ++ toString rid)

/-- The per dict of format_waiver_receipt: roster id to (adds, drops)
display-name lists, insertion-ordered, with setdefault-then-append
semantics.  isAdd selects which of the two lists receives the name. -/
def perInsert (isAdd : Bool) (per : List (Int × List String × List String))
    (rid : Int) (p : String) : List (Int × List String × List String) :=
  match per with
  | [] => [(rid, if isAdd then ([p], []) else ([], [p]))]
  | (r, a, d) :: rest =>
    if r = rid then
      (r, if isAdd then (a ++ [p], d) else (a, d ++ [p])) :: rest
    else
      (r, a, d) :: perInsert isAdd rest rid p

/-- The two grouping loops of format_waiver_receipt (ledger.py lines
148-156).  Each destination value goes through int(); none means that
conversion raised and so the whole formatter raises. -/
def buildPer (adds drops : List (String × PyVal)) (pmap : List (String × String)) :
    Option (List (Int × List String × List String)) := do
  let per ← adds.foldlM
    (fun per pr => do
      let rid ← pyToInt pr.2
      pure (perInsert true per rid (fmt_player pr.1 pmap))) []
  drops.foldlM
    (fun per pr => do
      let rid ← pyToInt pr.2
      pure (perInsert false per rid (fmt_player pr.1 pmap))) per

/-- The body the rendering loop of format_waiver_receipt appends for one
roster id (ledger.py lines 161-178): team header, adds block when
non-empty, drops block when non-empty, then a blank spacer. -/
def waiverBlock (rmap : List (Int × String))
    (per : List (Int × List String × List String)) (rid : Int) : List String :=
  let team := team_display rmap rid
  let a := ((List.lookup rid per).getD ([], [])).1
  let d := ((List.lookup rid per).getD ([], [])).2
  ["**" ++ team ++ "**"]
    ++ (if a.isEmpty then [] else "➕ **Adds:**" :: a)
    ++ (if d.isEmpty then [] else "➖ **Drops:**" :: d)
    ++ [""]

/-- The trailing while loop of format_waiver_receipt (ledger.py lines
182-183): pop blank lines off the end. -/
def popTrailingBlank (lines : List String) : List String :=
  (lines.reverse.dropWhile (fun s => s == "")).reverse

/-- format_waiver_receipt (ledger.py lines 140-185).  The outer Option is
exceptional termination: none means the formatter raises, which happens
exactly when int() raises on a destination or source id.  The inner
Option is the Python return value (none = the Python None return for a
transaction with no adds and no drops). -/
def format_waiver_receipt (t : Txn) (rmap : List (Int × String))
    (pmap : List (String × String)) : Option (Option (List String)) :=
  let adds := t.adds.getD []
  let drops := t.drops.getD []
  if adds.isEmpty && drops.isEmpty then some none
  else
    match buildPer adds drops pmap with
    | none => none
    | some per =>
      let keys := pySorted (fun a b => decide (a ≤ b)) (per.map (fun e => e.1))
      let lines := keys.foldl (fun lines rid => lines ++ waiverBlock rmap per rid)
        ["🧾 **Player Transaction**"]
      some (some (popTrailingBlank lines))

/-- setdefault-then-append on the received dict of format_trade_receipt. -/
def recvInsert (recv : List (Int × List String)) (rid : Int) (item : String) :
    List (Int × List String) :=
  match recv with
  | [] => [(rid, [item])]
  | (r, xs) :: rest =>
    if r = rid then (r, xs ++ [item]) :: rest
    else (r, xs) :: recvInsert rest rid item

/-- Python t.get(a) or t.get(b) or [] over two optional list fields: an
empty list is falsy, so it falls through to the next alternative. -/
def orList (a b : Option (List PyVal)) : List PyVal :=
  match a with
  | some l => if l.isEmpty then b.getD [] else l
  | none => b.getD []

/-- The received dict of format_trade_receipt (ledger.py lines 212-233):
players from adds whose destination resolves, then draft picks whose
destination resolves, rendered with the optional from-origin suffix.
Unresolvable destinations are skipped. -/
def receivedOf (t : Txn) (rmap : List (Int × String))
    (pmap : List (String × String)) (user_to_rid : List (Int × Int)) :
    List (Int × List String) :=
  let adds := t.adds.getD []
  let picks := t.draft_picks.getD []
  let r1 := adds.foldl
    (fun recv pr =>
      match resolve_rid pr.2 rmap user_to_rid with
      | none => recv
      | some rid => recvInsert recv rid (fmt_player pr.1 pmap)) []
  picks.foldl
    (fun recv pk =>
      let seasonTxt := pk.season.getD "?"
      let rndTxt := match pk.round with | some n => toString n | none => "?"
      match resolve_rid (pyOr pk.owner_id pk.roster_id) rmap user_to_rid with
      | none => recv
      | some dest =>
        let origTxt :=
          match resolve_rid (pyOr pk.roster_id
              (pyOr pk.previous_owner_id pk.previous_roster_id)) rmap user_to_rid with
          | some orig => " (from " ++ team_display rmap orig ++ ")"
          | none => ""
        recvInsert recv dest (seasonTxt ++ " Rd " ++ rndTxt ++ " Pick" ++ origTxt))
    r1

/-- The first roster_list loop of format_trade_receipt (ledger.py lines
236-240): the resolvable entries of roster_ids, falling back to
consenter_roster_ids, in payload order. -/
def resolvedRosters (t : Txn) (rmap : List (Int × String))
    (user_to_rid : List (Int × Int)) : List Int :=
  (orList t.roster_ids t.consenter_roster_ids).foldl
    (fun acc rv =>
      match resolve_rid rv rmap user_to_rid with
      | some rid => acc ++ [rid]
      | none => acc) []

/-- The roster_list of format_trade_receipt (ledger.py lines 236-244):
the resolvable explicit participants, and when fewer than two of those
exist, the ascending list of roster ids that actually received
something. -/
def rosterListOf (t : Txn) (rmap : List (Int × String))
    (pmap : List (String × String)) (user_to_rid : List (Int × Int)) : List Int :=
  if (resolvedRosters t rmap user_to_rid).length < 2 then
    pySorted (fun a b => decide (a ≤ b))
      ((receivedOf t rmap pmap user_to_rid).map (fun e => e.1))
  else resolvedRosters t rmap user_to_rid

/-- One receives line of the trade receipt (ledger.py lines 250-254). -/
def tradeLine (rmap : List (Int × String)) (received : List (Int × List String))
    (rid : Int) : String :=
  let team := team_display rmap rid
  let rec0 := (List.lookup rid received).getD []
  let recTxt := if rec0.isEmpty then "—" else String.intercalate ", " rec0
  "**" ++ team ++ " receives:** " ++ recTxt

/-- format_trade_receipt (ledger.py lines 187-256).  Returns none (the
Python None) when nothing was received or the participant list is empty;
every id conversion inside goes through the exception-catching resolver,
so this formatter never raises. -/
def format_trade_receipt (t : Txn) (rmap : List (Int × String))
    (pmap : List (String × String)) (user_to_rid : List (Int × Int)) :
    Option (List String) :=
  if (receivedOf t rmap pmap user_to_rid).isEmpty
      || (rosterListOf t rmap pmap user_to_rid).length < 1 then none
  else some ("🤝 **Trade Receipt**" ::
    (rosterListOf t rmap pmap user_to_rid).map
      (tradeLine rmap (receivedOf t rmap pmap user_to_rid)))

/-- The newest value computed by the scan loop of main (ledger.py lines
275-279): the running max of txn_ts over the whole batch, seeded with
the watermark read at run start. -/
def newestOf (last_seen : Nat) (txs : List Txn) : Nat :=
  txs.foldl (fun a t => max a (txn_ts t)) last_seen

/-- The classifier of main (ledger.py lines 274-291): the new-and-final
subset sorted ascending by timestamp, and the newest value that drives
the watermark. -/
def classify (last_seen : Nat) (txs : List Txn) : List Txn × Nat :=
  let new_txs := txs.filter (fun t => decide (last_seen < txn_ts t) && is_final_status t)
  (pySorted (fun a b => decide (txn_ts a ≤ txn_ts b)) new_txs,
    newestOf last_seen txs)

/-- The watermark write of main (ledger.py lines 284-286): the value
saved to the state file this run, none when nothing is written. -/
def run_store (last_seen : Nat) (txs : List Txn) : Option Nat :=
  if last_seen < newestOf last_seen txs then some (newestOf last_seen txs) else none

/-- The stored watermark after a run that started at last_seen: the
written value when a write happened, else the unchanged stored value. -/
def stored_after (last_seen : Nat) (txs : List Txn) : Nat :=
  (run_store last_seen txs).getD last_seen

/-- The receipt-accumulation loop of main (ledger.py lines 293-311):
waiver-type receipts and trade receipts are gathered into two line
buffers with a blank spacer between consecutive receipts.  none means a
formatter raised. -/
def gatherLines (rmap : List (Int × String)) (pmap : List (String × String))
    (user_to_rid : List (Int × Int)) (new_txs : List Txn) :
    Option (List String × List String) :=
  new_txs.foldlM
    (fun acc t => do
      let ttype := (t.ttype.getD "").toLower
      if ttype == "waiver" || ttype == "free_agent" || ttype == "add_drop" then
        match format_waiver_receipt t rmap pmap with
        | none => none
        | some none => pure acc
        | some (some block) =>
          if block.isEmpty then pure acc
          else pure (acc.1 ++ (if acc.1.isEmpty then [] else [""]) ++ block, acc.2)
      else if ttype == "trade" then
        match format_trade_receipt t rmap pmap user_to_rid with
        | none => pure acc
        | some block =>
          if block.isEmpty then pure acc
          else pure (acc.1, acc.2 ++ (if acc.2.isEmpty then [] else [""]) ++ block)
      else pure acc)
    ([], [])

/-- The messages a run posts (ledger.py lines 288-319), in order: the
waiver-channel chunks then the trade-channel chunks.  none means the run
raised while formatting.  An empty new_txs list returns before any
formatting, posting nothing. -/
def run_posts (last_seen : Nat) (txs : List Txn) (rmap : List (Int × String))
    (pmap : List (String × String)) (user_to_rid : List (Int × Int)) :
    Option (List String) :=
  let new_txs := (classify last_seen txs).1
  if new_txs.isEmpty then some []
  else do
    let (wl, tl) ← gatherLines rmap pmap user_to_rid new_txs
    pure ((if wl.isEmpty then [] else chunk_lines "" wl)
      ++ (if tl.isEmpty then [] else chunk_lines "" tl))

/-- A small team-name map fixture used by concrete instances. -/
def rmap0 : List (Int × String) := [(1, "A"), (2, "B"), (3, "C"), (5, "Alpha")]

/-- A small player-name map fixture used by concrete instances. -/
def pmap0 : List (String × String) := [("p1", "P1"), ("p2", "P2"), ("pa", "Pa"), ("pb", "Pb"), ("pc", "Pc")]

/-- A small owner-to-roster map fixture used by concrete instances. -/
def u2r0 : List (Int × Int) := [(77, 2)]

/-- A completed transaction with timestamp 100. -/
def tEx100 : Txn := { status := some "complete", status_updated := some 100 }

/-- A completed transaction with timestamp 5, older than watermark 10. -/
def tLow : Txn := { status := some "complete", status_updated := some 5 }

/-- A three-participant trade: two players go to two of the three teams. -/
def tTrade3 : Txn :=
  { adds := some [("p1", PyVal.vInt 1), ("p2", PyVal.vInt 2)],
    roster_ids := some [PyVal.vInt 1, PyVal.vInt 2, PyVal.vInt 3] }

/-- A trade involving a single distinct team. -/
def tTrade1 : Txn :=
  { adds := some [("p1", PyVal.vInt 5)], roster_ids := some [PyVal.vInt 5] }

/-- A single input line longer than the whole chunk budget. -/
def bigLine : String := String.mk (List.replicate 1901 'a')

theorem mem_insertLe {α : Type} (le : α → α → Bool) (x a : α) (l : List α) :
    a ∈ insertLe le x l ↔ a = x ∨ a ∈ l := by
  induction l with
  | nil => simp [insertLe]
  | cons y ys ih =>
    simp only [insertLe]
    split
    · simp [List.mem_cons]
    · simp only [List.mem_cons, ih]
      tauto

theorem mem_pySorted {α : Type} (le : α → α → Bool) (l : List α) (a : α) :
    a ∈ pySorted le l ↔ a ∈ l := by
  induction l with
  | nil => simp [pySorted]
  | cons x xs ih =>
    show a ∈ insertLe le x (pySorted le xs) ↔ a ∈ x :: xs
    rw [mem_insertLe, ih]
    simp [List.mem_cons]

theorem length_insertLe {α : Type} (le : α → α → Bool) (x : α) (l : List α) :
    (insertLe le x l).length = l.length + 1 := by
  induction l with
  | nil => rfl
  | cons y ys ih =>
    simp only [insertLe]
    split
    · rfl
    · simp [ih]

theorem length_pySorted {α : Type} (le : α → α → Bool) (l : List α) :
    (pySorted le l).length = l.length := by
  induction l with
  | nil => rfl
  | cons x xs ih =>
    show (insertLe le x (pySorted le xs)).length = xs.length + 1
    rw [length_insertLe, ih]

theorem pairwise_insertLe {α : Type} (le : α → α → Bool)
    (htrans : ∀ a b c, le a b = true → le b c = true → le a c = true)
    (htot : ∀ a b, (le a b || le b a) = true) (x : α) (l : List α)
    (hl : l.Pairwise (fun a b => le a b = true)) :
    (insertLe le x l).Pairwise (fun a b => le a b = true) := by
  induction l with
  | nil => simp [insertLe]
  | cons y ys ih =>
    rcases List.pairwise_cons.mp hl with ⟨hy, hys⟩
    simp only [insertLe]
    split
    · next hxy =>
      refine List.pairwise_cons.mpr ⟨?_, hl⟩
      intro b hb
      rcases List.mem_cons.mp hb with h | h
      · subst h
        exact hxy
      · exact htrans x y b hxy (hy b h)
    · next hxy =>
      refine List.pairwise_cons.mpr ⟨?_, ih hys⟩
      intro b hb
      rcases (mem_insertLe le x b ys).mp hb with h | h
      · subst h
        have ht := htot b y
        cases hq : le b y with
        | true => exact absurd hq hxy
        | false =>
          rw [hq] at ht
          simpa using ht
      · exact hy b h

theorem pairwise_pySorted {α : Type} (le : α → α → Bool)
    (htrans : ∀ a b c, le a b = true → le b c = true → le a c = true)
    (htot : ∀ a b, (le a b || le b a) = true) (l : List α) :
    (pySorted le l).Pairwise (fun a b => le a b = true) := by
  induction l with
  | nil => simp [pySorted]
  | cons x xs ih =>
    show (insertLe le x (pySorted le xs)).Pairwise (fun a b => le a b = true)
    exact pairwise_insertLe le htrans htot x _ ih

theorem le_newestOf (w : Nat) (txs : List Txn) : w ≤ newestOf w txs := by
  induction txs generalizing w with
  | nil => simp [newestOf]
  | cons t ts ih =>
    simp only [newestOf, List.foldl_cons] at *
    exact le_trans (le_max_left _ _) (ih (max w (txn_ts t)))

theorem txn_ts_le_newestOf {t : Txn} {txs : List Txn} (w : Nat) (ht : t ∈ txs) :
    txn_ts t ≤ newestOf w txs := by
  induction txs generalizing w with
  | nil => cases ht
  | cons s ts ih =>
    simp only [newestOf, List.foldl_cons]
    rcases List.mem_cons.mp ht with h | h
    · subst h
      exact le_trans (le_max_right _ _) (le_newestOf _ _)
    · exact ih _ h

theorem newestOf_eq_max (w : Nat) (txs : List Txn) :
    newestOf w txs = max w (newestOf 0 txs) := by
  induction txs generalizing w with
  | nil => simp [newestOf]
  | cons t ts ih =>
    simp only [newestOf, List.foldl_cons] at *
    rw [ih (max w (txn_ts t)), ih (max 0 (txn_ts t)), Nat.zero_max, max_assoc]

theorem stored_after_eq (w : Nat) (txs : List Txn) :
    stored_after w txs = newestOf w txs := by
  unfold stored_after run_store
  split
  · rfl
  · next h =>
    have := le_newestOf w txs
    simp only [Option.getD_none]
    omega

/-- C1: the persisted watermark is monotonic non-decreasing across runs:
whenever a value is written back it equals max(w, max timestamp over the
entire batch), and the stored watermark after the run is at least the
stored watermark before it, so it is never rewound. -/
theorem watermark_monotonic (w : Nat) (txs : List Txn) :
    (∀ v, run_store w txs = some v → v = max w (newestOf 0 txs)) ∧
    w ≤ stored_after w txs := by
  constructor
  · intro v hv
    unfold run_store at hv
    split at hv
    · cases hv
      exact newestOf_eq_max w txs
    · cases hv
  · rw [stored_after_eq]
    exact le_newestOf w txs

/-- Witness for C1 at watermark 10 and a batch holding one transaction
with timestamp 100: the written value is max 10 100. -/
theorem watermark_monotonic_witness :
    (100 : Nat) = max 10 (newestOf 0 [tEx100]) ∧ 10 ≤ stored_after 10 [tEx100] :=
  ⟨(watermark_monotonic 10 [tEx100]).1 100 (by decide),
    (watermark_monotonic 10 [tEx100]).2⟩

/-- C2 counterexample: with start-of-run watermark 10 and a batch whose
only transaction has timestamp 5, the computed watermark candidate is 10,
not the maximum timestamp over the batch (which is 5): the candidate is
seeded with the start-of-run watermark, not with zero. -/
theorem classify_newest_ce : (classify 10 [tLow]).2 ≠ newestOf 0 [tLow] := by
  decide

/-- C2 (amended): a transaction is included iff its fallback timestamp is
strictly above the start-of-run watermark and its status is terminal; the
watermark candidate is the maximum of the start-of-run watermark and the
maximum timestamp over the entire batch regardless of finality; and the
included subset is sorted ascending by timestamp. -/
theorem classify_spec_amended (w : Nat) (txs : List Txn) :
    (∀ t, t ∈ (classify w txs).1 ↔ t ∈ txs ∧ w < txn_ts t ∧ is_final_status t = true) ∧
    (classify w txs).2 = max w (newestOf 0 txs) ∧
    (classify w txs).1.Pairwise (fun a b => txn_ts a ≤ txn_ts b) := by
  refine ⟨?_, ?_, ?_⟩
  · intro t
    simp only [classify, mem_pySorted, List.mem_filter, Bool.and_eq_true,
      decide_eq_true_iff]
  · simpa only [classify] using newestOf_eq_max w txs
  · have htrans : ∀ a b c : Txn, decide (txn_ts a ≤ txn_ts b) = true →
        decide (txn_ts b ≤ txn_ts c) = true → decide (txn_ts a ≤ txn_ts c) = true := by
      intro a b c h1 h2
      simp only [decide_eq_true_iff] at *
      omega
    have htotal : ∀ a b : Txn,
        (decide (txn_ts a ≤ txn_ts b) || decide (txn_ts b ≤ txn_ts a)) = true := by
      intro a b
      rcases Nat.le_total (txn_ts a) (txn_ts b) with h | h <;> simp [h]
    have hs := pairwise_pySorted _ htrans htotal
      (txs.filter (fun t => decide (w < txn_ts t) && is_final_status t))
    simp only [classify]
    exact hs.imp (fun h => of_decide_eq_true h)

/-- C9: after any run, a second run over the same unchanged batch
classifies nothing as new-and-final and therefore posts zero messages. -/
theorem rerun_idempotent (w : Nat) (txs : List Txn) (rmap : List (Int × String))
    (pmap : List (String × String)) (u2r : List (Int × Int)) :
    (classify (stored_after w txs) txs).1 = [] ∧
    run_posts (stored_after w txs) txs rmap pmap u2r = some [] := by
  have hfil : txs.filter
      (fun t => decide (stored_after w txs < txn_ts t) && is_final_status t) = [] := by
    rw [List.filter_eq_nil_iff]
    intro t ht
    have h1 : txn_ts t ≤ stored_after w txs := by
      rw [stored_after_eq]
      exact txn_ts_le_newestOf w ht
    simp only [Bool.and_eq_true, decide_eq_true_iff, not_and]
    intro hlt
    exact absurd h1 (Nat.not_le.mpr hlt)
  have h1 : (classify (stored_after w txs) txs).1 = [] := by
    simp [classify, hfil, pySorted]
  exact ⟨h1, by simp [run_posts, h1]⟩

theorem chunkLoop_length_le (header : String) (lines : List String) :
    ∀ (msgs : List String) (cur : String),
      (∀ c ∈ msgs, c.length ≤ 1900) → cur.length ≤ 1900 →
      (∀ l ∈ lines, header.length + l.length + 1 ≤ 1900) →
      ∀ c ∈ chunkLoop header lines msgs cur, c.length ≤ 1900 := by
  induction lines with
  | nil =>
    intro msgs cur hm hc _ c hcmem
    simp only [chunkLoop] at hcmem
    split at hcmem
    · rcases List.mem_append.mp hcmem with h | h
      · exact hm c h
      · simp only [List.mem_singleton] at h
        subst h
        exact hc
    · exact hm c hcmem
  | cons l rest ih =>
    intro msgs cur hm hc hl c hcmem
    have hnl : ("\n" : String).length = 1 := rfl
    simp only [chunkLoop] at hcmem
    split at hcmem
    · next hgt =>
      refine ih (msgs ++ [cur]) (header ++ l ++ "\n") ?_ ?_
        (fun x hx => hl x (List.mem_cons_of_mem _ hx)) c hcmem
      · intro x hx
        rcases List.mem_append.mp hx with h | h
        · exact hm x h
        · simp only [List.mem_singleton] at h
          subst h
          exact hc
      · rw [String.length_append, String.length_append, hnl]
        have := hl l (List.mem_cons_self l rest)
        omega
    · next hle =>
      refine ih msgs (cur ++ l ++ "\n") hm ?_
        (fun x hx => hl x (List.mem_cons_of_mem _ hx)) c hcmem
      rw [String.length_append, String.length_append, hnl]
      omega

/-- C3 (amended): every chunk stays within the 1900-character budget
provided every single input line itself fits in the budget together with
the header and the newline separator. -/
theorem chunk_size_bound (header : String) (lines : List String)
    (hl : ∀ l ∈ lines, header.length + l.length + 1 ≤ 1900)
    (c : String) (hc : c ∈ chunk_lines header lines) : c.length ≤ 1900 := by
  cases lines with
  | nil => simp [chunk_lines, chunkLoop] at hc
  | cons l rest =>
    have hh : header.length ≤ 1900 := by
      have := hl l (List.mem_cons_self l rest)
      omega
    exact chunkLoop_length_le header (l :: rest) [] header (by simp) hh hl c hc

/-- Witness for C3 at a header and two short lines: the single resulting
chunk is within the budget. -/
theorem chunk_size_bound_witness : ("Hab\ncd\n" : String).length ≤ 1900 :=
  chunk_size_bound "H" ["ab", "cd"] (by decide) "Hab\ncd\n" (by decide)

theorem stripChars_ne_nil {l : List Char} {c : Char} (hc : c ∈ l)
    (hns : isPySpace c = false) : stripChars l ≠ [] := by
  intro h
  unfold stripChars at h
  rw [List.reverse_eq_nil_iff] at h
  rw [List.dropWhile_eq_nil_iff] at h
  have hcd : c ∈ List.dropWhile isPySpace l := by
    have hsplit := List.takeWhile_append_dropWhile (p := isPySpace) (l := l)
    rw [← hsplit] at hc
    rcases List.mem_append.mp hc with h1 | h1
    · have := List.mem_takeWhile_imp h1
      rw [hns] at this
      cases this
    · exact h1
  have := h c (List.mem_reverse.mpr hcd)
  rw [hns] at this
  cases this

theorem pyStrip_ne_of_nonspace {s : String} {c : Char} (hc : c ∈ s.data)
    (hns : isPySpace c = false) : pyStrip s ≠ pyStrip "" := by
  intro h
  have h2 : stripChars s.data = [] := congrArg String.data h
  exact stripChars_ne_nil hc hns h2

/-- C3 counterexample: with an empty header and a single 1901-character
line, the chunker emits a 1902-character chunk, above the 1900 budget:
a fresh chunk opened after a flush is never re-checked against the
budget. -/
theorem chunk_oversize_ce :
    (bigLine ++ "\n") ∈ chunk_lines "" [bigLine] ∧ 1900 < (bigLine ++ "\n").length := by
  have hbig : bigLine.length = 1901 := by
    show (String.mk (List.replicate 1901 'a')).length = 1901
    rw [String.length_mk, List.length_replicate]
  have h0 : ("" : String).length = 0 := rfl
  have hnl : ("\n" : String).length = 1 := rfl
  have hlen : 1900 < (bigLine ++ "\n").length := by
    rw [String.length_append, hbig, hnl]
    omega
  refine ⟨?_, hlen⟩
  have hcond : ("" : String).length + bigLine.length + 1 > 1900 := by omega
  have hmem : 'a' ∈ ("" ++ bigLine ++ "\n").data := by
    show 'a' ∈ ([] : List Char) ++ List.replicate 1901 'a' ++ ['\n']
    rw [List.nil_append]
    exact List.mem_append_left _ (List.mem_replicate.mpr ⟨by norm_num, rfl⟩)
  have hne : pyStrip ("" ++ bigLine ++ "\n") ≠ pyStrip "" :=
    pyStrip_ne_of_nonspace hmem (by decide)
  have hcl : chunk_lines "" [bigLine] = ["", "" ++ bigLine ++ "\n"] := by
    unfold chunk_lines
    simp only [chunkLoop]
    rw [if_pos hcond, if_pos hne]
    rfl
  rw [hcl]
  have hb : ("" ++ bigLine ++ "\n") = (bigLine ++ "\n") := rfl
  rw [hb]
  exact List.mem_cons_of_mem _ (List.mem_singleton.mpr rfl)

theorem chunkLoop_eq_state (header : String) (lines : List String) :
    ∀ (msgs : List String) (cur : String),
      chunkLoop header lines msgs cur =
        (List.foldl (chunkStep header) (msgs, cur) lines).1 ++
          (if pyStrip (List.foldl (chunkStep header) (msgs, cur) lines).2 = pyStrip header
            then [] else [(List.foldl (chunkStep header) (msgs, cur) lines).2]) := by
  induction lines with
  | nil =>
    intro msgs cur
    simp only [chunkLoop, List.foldl_nil]
    by_cases h : pyStrip cur = pyStrip header
    · rw [if_neg (by simpa using h), if_pos h, List.append_nil]
    · rw [if_pos h, if_neg h]
  | cons l rest ih =>
    intro msgs cur
    simp only [chunkLoop, List.foldl_cons, chunkStep]
    by_cases h : cur.length + l.length + 1 > 1900
    · rw [if_pos h, if_pos h]
      exact ih (msgs ++ [cur]) (header ++ l ++ "\n")
    · rw [if_neg h, if_neg h]
      exact ih msgs (cur ++ l ++ "\n")

theorem dropWhile_append_of_all {α : Type} (p : α → Bool) (x y : List α)
    (h : ∀ a ∈ x, p a = true) :
    List.dropWhile p (x ++ y) = List.dropWhile p y := by
  rw [List.dropWhile_append]
  have hx : (List.dropWhile p x).isEmpty = true :=
    List.isEmpty_iff.mpr (List.dropWhile_eq_nil_iff.mpr h)
  simp [hx]

theorem stripChars_append_space (a w : List Char) (hw : ∀ c ∈ w, isPySpace c = true) :
    stripChars (a ++ w) = stripChars a := by
  unfold stripChars
  rw [List.dropWhile_append]
  by_cases h : (List.dropWhile isPySpace a).isEmpty = true
  · have ha : List.dropWhile isPySpace a = [] := List.isEmpty_iff.mp h
    have hww : List.dropWhile isPySpace w = [] := List.dropWhile_eq_nil_iff.mpr hw
    simp [h, ha, hww]
  · rw [if_neg h, List.reverse_append,
      dropWhile_append_of_all isPySpace w.reverse _
        (fun c hc => hw c (List.mem_reverse.mp hc))]

theorem chunkLoop_all_space (header : String) (ws : List String) :
    ∀ (msgs : List String) (w0 : List Char),
      (∀ c ∈ w0, isPySpace c = true) →
      (∀ l ∈ ws, ∀ c ∈ l.data, isPySpace c = true) →
      header.length + w0.length + (ws.map (fun l => l.length + 1)).sum ≤ 1900 →
      chunkLoop header ws msgs ⟨header.data ++ w0⟩ = msgs := by
  induction ws with
  | nil =>
    intro msgs w0 hw0 _ _
    simp only [chunkLoop]
    rw [if_neg]
    intro hne
    apply hne
    show pyStrip (⟨header.data ++ w0⟩ : String) = pyStrip header
    unfold pyStrip
    exact congrArg String.mk (stripChars_append_space header.data w0 hw0)
  | cons l rest ih =>
    intro msgs w0 hw0 hws hsum
    have hlen : (⟨header.data ++ w0⟩ : String).length = header.length + w0.length := by
      rw [String.length_mk, List.length_append]
      rfl
    have hld : l.length = l.data.length := rfl
    simp only [chunkLoop]
    rw [if_neg]
    · have heq : (⟨header.data ++ w0⟩ : String) ++ l ++ "\n" =
          (⟨header.data ++ (w0 ++ l.data ++ ['\n'])⟩ : String) := by
        apply String.ext
        show (header.data ++ w0) ++ l.data ++ ['\n'] = header.data ++ (w0 ++ l.data ++ ['\n'])
        simp [List.append_assoc]
      rw [heq]
      apply ih
      · intro c hc
        rcases List.mem_append.mp hc with h1 | h1
        · rcases List.mem_append.mp h1 with h2 | h2
          · exact hw0 c h2
          · exact hws l (List.mem_cons_self l rest) c h2
        · simp only [List.mem_singleton] at h1
          subst h1
          rfl
      · exact fun x hx => hws x (List.mem_cons_of_mem _ hx)
      · simp only [List.map_cons, List.sum_cons] at hsum
        simp only [List.length_append, List.length_singleton]
        omega
    · rw [hlen]
      simp only [List.map_cons, List.sum_cons] at hsum
      omega

/-- C10: in the chunker, mid-loop flushes are emitted unconditionally and
only the final accumulated chunk is subject to discarding, exactly when
its stripped content equals the stripped header; consequently an empty
line list yields no chunks, and a batch of whitespace-only lines that
fits the budget is dropped entirely rather than delivered. -/
theorem chunker_discard_spec :
    (∀ (header : String) (lines : List String),
      chunk_lines header lines =
        (chunkState header lines).1 ++
          (if pyStrip (chunkState header lines).2 = pyStrip header then []
            else [(chunkState header lines).2])) ∧
    (∀ header : String, chunk_lines header [] = []) ∧
    (∀ (header : String) (ws : List String),
      (∀ l ∈ ws, ∀ c ∈ l.data, isPySpace c = true) →
      header.length + (ws.map (fun l => l.length + 1)).sum ≤ 1900 →
      chunk_lines header ws = []) := by
  refine ⟨?_, ?_, ?_⟩
  · intro header lines
    exact chunkLoop_eq_state header lines [] header
  · intro header
    simp [chunk_lines, chunkLoop]
  · intro header ws hws hsum
    have hh : header = (⟨header.data ++ []⟩ : String) := by
      apply String.ext
      simp
    have h2 := chunkLoop_all_space header ws [] []
      (fun c hc => absurd hc (List.not_mem_nil c)) hws (by simpa using hsum)
    unfold chunk_lines
    exact (congrArg (chunkLoop header ws []) hh).trans h2

/-- Witness for C10: a batch of two whitespace-only lines under a short
header produces no chunks at all. -/
theorem chunker_discard_witness : chunk_lines "hdr" ["  ", "\t"] = [] :=
  chunker_discard_spec.2.2 "hdr" ["  ", "\t"] (by decide) (by decide)

/-- C4: contradicted by the code.  format_waiver_receipt converts each
destination and source id with a bare int() (ledger.py lines 149 and
154), with no try/except and no resolver fallback, so a missing (None)
or non-numeric destination makes the formatter raise instead of
rendering a fallback: both evaluations below end in the exception
embedding (none) rather than a rendered result. -/
theorem waiver_malformed_raises :
    format_waiver_receipt { adds := some [("p1", PyVal.vNone)] } [] [] = none ∧
    format_waiver_receipt { drops := some [("p2", PyVal.vStr "abc")] } [] [] = none :=
  ⟨rfl, by decide⟩

/-- C5 counterexample: a trade whose participant list resolves to the
single team 5 (one distinct team) is still rendered with one receives
line, not suppressed: the code only requires a non-empty participant
list (ledger.py line 246 checks < 1, not < 2). -/
theorem trade_single_team_ce :
    rosterListOf tTrade1 rmap0 pmap0 u2r0 = [5] ∧
    format_trade_receipt tTrade1 rmap0 pmap0 u2r0 =
      some ["🤝 **Trade Receipt**", "**Alpha receives:** P1"] :=
  ⟨by decide, by decide⟩

/-- C5 (amended): a trade receipt is produced iff the received map is
non-empty, i.e. at least one resolvable receiving team exists; the
participant list is the resolved explicit roster_ids when those give at
least two entries, else the ascending teams of the received map. -/
theorem trade_render_iff (t : Txn) (rmap : List (Int × String))
    (pmap : List (String × String)) (u2r : List (Int × Int)) :
    format_trade_receipt t rmap pmap u2r = none ↔ receivedOf t rmap pmap u2r = [] := by
  constructor
  · intro h
    unfold format_trade_receipt at h
    split at h
    · next hcond =>
      have hcond2 : (receivedOf t rmap pmap u2r).isEmpty = true ∨
          (rosterListOf t rmap pmap u2r).length < 1 := by simpa using hcond
      rcases hcond2 with h1 | hlen
      · exact List.isEmpty_iff.mp h1
      · by_contra hne
        unfold rosterListOf at hlen
        split at hlen
        · rw [length_pySorted, List.length_map] at hlen
          have hpos : 0 < (receivedOf t rmap pmap u2r).length := List.length_pos.mpr hne
          omega
        · next h2 => omega
    · cases h
  · intro h
    simp [format_trade_receipt, h]

/-- C6: resolve_rid returns the id itself when it is a known team id,
else the team looked up through the owner-to-team map, else nothing; and
the display of a team id absent from the team map is always the
deterministic fallback string. -/
theorem resolve_rid_spec (val : PyVal) (rmap : List (Int × String))
    (u2r : List (Int × Int)) (x rid : Int) :
    (pyToInt val = some x → (List.lookup x rmap).isSome = true →
      resolve_rid val rmap u2r = some x) ∧
    (pyToInt val = some x → List.lookup x rmap = none →
      resolve_rid val rmap u2r = List.lookup x u2r) ∧
    (pyToInt val = none → resolve_rid val rmap u2r = none) ∧
    (List.lookup rid rmap = none →
      team_display rmap rid = "Roster " ++ toString rid) := by
  refine ⟨?_, ?_, ?_, ?_⟩
  · intro h1 h2
    unfold resolve_rid
    rw [h1]
    simp [h2]
  · intro h1 h2
    unfold resolve_rid
    rw [h1]
    simp only [h2, Option.isSome_none, Bool.false_eq_true, if_false]
    cases hl : List.lookup x u2r <;> simp [hl]
  · intro h1
    unfold resolve_rid
    rw [h1]
  · intro h
    unfold team_display
    rw [h]
    rfl

/-- Witness for C6: a direct team id, an owner id mapping to team 2, a
None id, and the fallback rendering of the unknown id 9. -/
theorem resolve_rid_spec_witness :
    resolve_rid (PyVal.vInt 5) rmap0 u2r0 = some 5 ∧
    resolve_rid (PyVal.vInt 77) rmap0 u2r0 = List.lookup 77 u2r0 ∧
    resolve_rid PyVal.vNone rmap0 u2r0 = none ∧
    team_display rmap0 9 = "Roster " ++ toString (9 : Int) :=
  ⟨(resolve_rid_spec (PyVal.vInt 5) rmap0 u2r0 5 9).1 rfl (by decide),
   (resolve_rid_spec (PyVal.vInt 77) rmap0 u2r0 77 9).2.1 rfl (by decide),
   (resolve_rid_spec PyVal.vNone rmap0 u2r0 0 9).2.2.1 rfl,
   (resolve_rid_spec PyVal.vNone rmap0 u2r0 0 9).2.2.2 (by decide)⟩

theorem foldl_append_flatMap {α β : Type} (f : α → List β) (keys : List α) :
    ∀ init : List β, keys.foldl (fun acc k => acc ++ f k) init = init ++ keys.flatMap f := by
  induction keys with
  | nil =>
    intro init
    simp
  | cons k ks ih =>
    intro init
    simp only [List.foldl_cons, List.flatMap_cons, ih]
    rw [List.append_assoc]

theorem popTrailingBlank_cons (h : String) (l : List String) (hh : (h == "") = false) :
    popTrailingBlank (h :: l) = h :: popTrailingBlank l := by
  unfold popTrailingBlank
  rw [List.reverse_cons, List.dropWhile_append]
  by_cases he : (List.dropWhile (fun s => s == "") l.reverse).isEmpty = true
  · rw [if_pos he]
    have h1 : List.dropWhile (fun s => s == "") [h] = [h] := by
      simp [List.dropWhile, hh]
    have h2 : List.dropWhile (fun s => s == "") l.reverse = [] := List.isEmpty_iff.mp he
    rw [h1, h2]
    simp
  · rw [if_neg he]
    simp [List.reverse_append]

/-- C7: for a roster move with at least one add or drop whose ids all
convert, the receipt is the fixed header followed by one block per team
in ascending order of team id — each block being the team header, the
adds block, the drops block and a blank spacer, empty sub-blocks omitted
(the shape of waiverBlock) — with the trailing blank spacers removed
from the end of the whole output. -/
theorem waiver_layout (t : Txn) (rmap : List (Int × String))
    (pmap : List (String × String)) (per : List (Int × List String × List String))
    (hne : ((t.adds.getD []).isEmpty && (t.drops.getD []).isEmpty) = false)
    (hper : buildPer (t.adds.getD []) (t.drops.getD []) pmap = some per) :
    format_waiver_receipt t rmap pmap =
      some (some ("🧾 **Player Transaction**" ::
        popTrailingBlank
          ((pySorted (fun a b => decide (a ≤ b)) (per.map (fun e => e.1))).flatMap
            (waiverBlock rmap per)))) ∧
    (pySorted (fun a b => decide (a ≤ b)) (per.map (fun e => e.1))).Pairwise
      (fun a b => a ≤ b) := by
  constructor
  · unfold format_waiver_receipt
    rw [if_neg (by simp [hne]), hper]
    dsimp only
    rw [foldl_append_flatMap]
    rw [List.singleton_append]
    rw [popTrailingBlank_cons _ _ (by decide)]
  · have htrans : ∀ a b c : Int, decide (a ≤ b) = true → decide (b ≤ c) = true →
        decide (a ≤ c) = true := by
      intro a b c h1 h2
      simp only [decide_eq_true_iff] at *
      omega
    have htotal : ∀ a b : Int, (decide (a ≤ b) || decide (b ≤ a)) = true := by
      intro a b
      rcases Int.le_total a b with h | h <;> simp [h]
    exact (pairwise_pySorted _ htrans htotal _).imp (fun h => of_decide_eq_true h)

/-- Witness for C7: a move adding players to teams 2 and 1 and dropping
from team 1 renders the team-1 block before the team-2 block, with the
drops sub-block present only for team 1 and no trailing blank line. -/
theorem waiver_layout_witness :
    format_waiver_receipt
        { adds := some [("pa", PyVal.vInt 2), ("pb", PyVal.vInt 1)],
          drops := some [("pc", PyVal.vInt 1)] } rmap0 pmap0 =
      some (some ("🧾 **Player Transaction**" ::
        popTrailingBlank
          ((pySorted (fun a b => decide (a ≤ b))
              ([(2, (["Pa"], [])), (1, (["Pb"], ["Pc"]))].map (fun e => e.1))).flatMap
            (waiverBlock rmap0 [(2, (["Pa"], [])), (1, (["Pb"], ["Pc"]))])))) ∧
    (pySorted (fun a b => decide (a ≤ b))
        ([((2 : Int), (["Pa"], [])), (1, (["Pb"], ["Pc"]))].map (fun e => e.1))).Pairwise
      (fun a b => a ≤ b) :=
  waiver_layout
    { adds := some [("pa", PyVal.vInt 2), ("pb", PyVal.vInt 1)],
      drops := some [("pc", PyVal.vInt 1)] } rmap0 pmap0
    [(2, (["Pa"], [])), (1, (["Pb"], ["Pc"]))] (by decide) (by decide)

/-- C8: every rendered trade is the fixed header followed by exactly one
receives line per entry of the participant list, each line showing the
comma-joined received assets or an em-dash when that team received
nothing; in particular the three-participant example trade renders
exactly three receives lines, the third with an em-dash. -/
theorem trade_receipt_lines :
    (∀ (t : Txn) (rmap : List (Int × String)) (pmap : List (String × String))
        (u2r : List (Int × Int)) (out : List String),
      format_trade_receipt t rmap pmap u2r = some out →
      out = "🤝 **Trade Receipt**" ::
        (rosterListOf t rmap pmap u2r).map
          (tradeLine rmap (receivedOf t rmap pmap u2r))) ∧
    format_trade_receipt tTrade3 rmap0 pmap0 u2r0 =
      some ["🤝 **Trade Receipt**", "**A receives:** P1", "**B receives:** P2",
        "**C receives:** —"] := by
  constructor
  · intro t rmap pmap u2r out h
    unfold format_trade_receipt at h
    split at h
    · cases h
    · injection h with h2
      exact h2.symm
  · decide

/-- Witness for C8: the three-participant scenario instantiating the
general line-per-participant shape. -/
theorem trade_receipt_lines_witness :
    ["🤝 **Trade Receipt**", "**A receives:** P1", "**B receives:** P2",
        "**C receives:** —"] =
      "🤝 **Trade Receipt**" ::
        (rosterListOf tTrade3 rmap0 pmap0 u2r0).map
          (tradeLine rmap0 (receivedOf tTrade3 rmap0 pmap0 u2r0)) :=
  trade_receipt_lines.1 tTrade3 rmap0 pmap0 u2r0 _ (by decide)
